import Mathlib

/-!
Verification of the Baseball repository's categorical input-level encoder
and sampling/target pipeline (`notebooks/mlb_feature_explainer.py`) and of
the HTML-table parser (`web_scraper_tools.py`).

Raw categorical values are modelled as strings, statistic values as
rationals, and NumPy arrays as Lean lists.
-/

/-- Modelled from the spec: the `InputLevels` class is imported from the
`shap_explainer` module, whose source file is not part of the repository
snapshot; only its construction sites and call sites appear in
`notebooks/mlb_feature_explainer.py`.  Per the spec, an `InputLevels`
value is an ordered, duplicate-free list of retained raw levels with the
reserved catch-all level `"OTHER"` appended last. -/
structure InputLevels where
  levels : List String
deriving DecidableEq

/-- Modelled from the spec: construction from observed raw values and a
minimum-observation threshold.  The distinct values whose observed
frequency is at least `min_obs` are retained (the threshold is inclusive)
in a deterministic order, the reserved catch-all value excluded, and
`"OTHER"` is appended last. -/
def InputLevels.ofValues (values : List String) (min_obs : Nat) : InputLevels :=
  ⟨values.dedup.filter
      (fun v => decide (min_obs ≤ values.count v) && decide (v ≠ "OTHER"))
    ++ ["OTHER"]⟩

/-- Modelled from the spec: a fixed, hand-supplied level list may be
supplied instead of being learned from data (used for the home/away
composite field); the catch-all is still appended last. -/
def InputLevels.ofLevels (ls : List String) : InputLevels :=
  ⟨ls.dedup.filter (fun v => decide (v ≠ "OTHER")) ++ ["OTHER"]⟩

/-- The catch-all level always occupies the highest index. -/
def InputLevels.catchAllIndex (lv : InputLevels) : Nat :=
  lv.levels.length - 1

/-- Modelled from the spec: total lookup raw value → index; any raw value
absent from the vocabulary (including values never seen at construction
time) resolves to the catch-all index, and no error is raised. -/
def InputLevels.get_indexes (lv : InputLevels) (v : String) : Nat :=
  if v ∈ lv.levels then lv.levels.indexOf v else lv.catchAllIndex

/-- Modelled from the spec: lookup index → raw value through the
safe-lookup idiom the spec describes — an index outside
`[0, len(levels))` produces the `none` placeholder rather than an
error. -/
def InputLevels.get_levels (lv : InputLevels) (i : Nat) : Option String :=
  lv.levels.get? i

/-- A raw game record, restricted to the columns consumed by the
pipeline (the notebook's `inputs` list) together with the run counts the
win targets are derived from.  Rows containing nulls are dropped by the
notebook before any of the functions below run. -/
structure Row where
  Year : String
  Month : String
  Day : String
  DayNight : String
  ParkID : String
  Attendance : String
  HmTmLg : String
  UmpHID : String
  VisTmYr : String
  VisStPchID : String
  VisMgrID : String
  HmTmYr : String
  HmStPchID : String
  HmMgrID : String
  VisRuns : Nat
  HmRuns : Nat

/-- The data-dependent entries of the notebook's module-level
`input_levels` dictionary (each one an `InputLevels` built from the
game-log data). -/
structure Env where
  years : InputLevels
  months : InputLevels
  dow : InputLevels
  time_of_day : InputLevels
  parks : InputLevels
  leagues : InputLevels
  umps : InputLevels
  teams : InputLevels
  pitchers : InputLevels
  managers : InputLevels

/-- The hand-supplied `home_away` entry of `input_levels` (notebook lines
132-140): the literal six attendance-qualified home/away levels. -/
def input_levels_home_away : InputLevels :=
  InputLevels.ofLevels
    ["away_low", "away_med", "away_high", "home_low", "home_med", "home_high"]

/-- The function `get_inputs` (notebook lines 143-177): encodes one raw record as a
14-entry index vector; the seven shared fields first, then the
team/pitcher/manager blocks in an order decided by `home_tm_last`, and
the home/away composite field last. -/
def get_inputs (env : Env) (row : Row) (home_tm_last : Bool) : List Nat :=
  [env.years.get_indexes row.Year,
   env.months.get_indexes row.Month,
   env.dow.get_indexes row.Day,
   env.time_of_day.get_indexes row.DayNight,
   env.parks.get_indexes row.ParkID,
   env.leagues.get_indexes row.HmTmLg,
   env.umps.get_indexes row.UmpHID] ++
  (if home_tm_last then
    [env.teams.get_indexes row.VisTmYr,
     env.pitchers.get_indexes row.VisStPchID,
     env.managers.get_indexes row.VisMgrID,
     env.teams.get_indexes row.HmTmYr,
     env.pitchers.get_indexes row.HmStPchID,
     env.managers.get_indexes row.HmMgrID,
     input_levels_home_away.get_indexes ("home_" ++ row.Attendance)]
  else
    [env.teams.get_indexes row.HmTmYr,
     env.pitchers.get_indexes row.HmStPchID,
     env.managers.get_indexes row.HmMgrID,
     env.teams.get_indexes row.VisTmYr,
     env.pitchers.get_indexes row.VisStPchID,
     env.managers.get_indexes row.VisMgrID,
     input_levels_home_away.get_indexes ("away_" ++ row.Attendance)])

/-- The column `df_subset['VisWin'] = df_subset['VisRuns'] > df_subset['HmRuns']`
(notebook line 108). -/
def VisWin (row : Row) : Bool :=
  decide (row.HmRuns < row.VisRuns)

/-- The column `df_subset['HmWin'] = df_subset['HmRuns'] >= df_subset['VisRuns']`
(notebook line 109). -/
def HmWin (row : Row) : Bool :=
  decide (row.VisRuns ≤ row.HmRuns)

/-- Python's substring test `needle in s` on character lists:
`needle` occurs contiguously in the list. -/
def charsContain (needle : List Char) : List Char → Bool
  | [] => needle.isEmpty
  | c :: rest => needle.isPrefixOf (c :: rest) || charsContain needle rest

/-- Python's substring test `needle in s` on strings. -/
def strContains (needle s : String) : Bool :=
  charsContain needle.toList s.toList

/-- The perspective decoder of `get_sample` (notebook lines 229-233):
`('home' in x) if x is not None else False`, cast to an integer, applied
to the decoded last entry of one encoded vector. -/
def vis_hm_idx (xLast : Nat) : Nat :=
  match input_levels_home_away.get_levels xLast with
  | some lv => if strContains "home" lv then 1 else 0
  | none => 0

/-- The `'Win'` target of `get_sample` (notebook line 243) for one
record: `s[['VisWin','HmWin']].values[row_idx, vis_hm_idx]`, where the
record was encoded with the given `home_tm_last` outcome. -/
def win_target (env : Env) (row : Row) (home_tm_last : Bool) : Bool :=
  [VisWin row, HmWin row].getD
    (vis_hm_idx ((get_inputs env row home_tm_last).getLastD 0)) false

/-- The masking step of `get_sample` (notebook lines 235-237):
`if mask_p > 0: mask = np.random.rand(*x.shape) <= mask_p; x[mask] = 0`,
for one encoded vector `x`, with the per-position uniform draws made
explicit as the list `randoms`. -/
def apply_mask (x : List Nat) (randoms : List ℚ) (mask_p : ℚ) : List Nat :=
  if 0 < mask_p then
    List.zipWith (fun xi r => if r ≤ mask_p then 0 else xi) x randoms
  else x

/-- NumPy's `np.linspace(0, 1, n)`. -/
def np_linspace01 (n : Nat) : List ℚ :=
  if n = 0 then []
  else if n = 1 then [0]
  else (List.range n).map (fun i => (i : ℚ) / ((n : ℚ) - 1))

/-- Insert a value into a sorted list, keeping it sorted. -/
def insertSorted (a : ℚ) : List ℚ → List ℚ
  | [] => [a]
  | b :: rest => if a ≤ b then a :: b :: rest else b :: insertSorted a rest

/-- Ascending insertion sort (the model of NumPy's sort). -/
def sortQ : List ℚ → List ℚ
  | [] => []
  | a :: rest => insertSorted a (sortQ rest)

/-- NumPy's `np.unique`: sorted distinct values. -/
def np_unique (l : List ℚ) : List ℚ :=
  (sortQ l).dedup

/-- NumPy's `np.quantile(a, q)` with the default linear interpolation: virtual
index `h = q * (n - 1)`, interpolated between the two neighbouring order
statistics (0 on an empty array, which NumPy rejects). -/
def np_quantile (a : List ℚ) (q : ℚ) : ℚ :=
  let s := sortQ a
  let n := s.length
  if n = 0 then 0
  else
    let h : ℚ := q * ((n : ℚ) - 1)
    let lo : Nat := (Rat.floor h).toNat
    let hi : Nat := min (lo + 1) (n - 1)
    s.getD lo 0 + (h - (lo : ℚ)) * (s.getD hi 0 - s.getD lo 0)

/-- The threshold derivation of `get_binary_targets` (notebook lines
185-194): pool both sides' values; if there are at most `n_q` distinct
values use them all, otherwise take the distinct linear-interpolation
quantiles at `np.linspace(0, 1, n_q)`; finally drop the largest
threshold (`quantiles[:-1]`). -/
def quantile_thresholds (visVals hmVals : List ℚ) (n_q : Nat) : List ℚ :=
  let var_values := visVals ++ hmVals
  let unique_vals := np_unique var_values
  let quantiles :=
    if unique_vals.length ≤ n_q then unique_vals
    else np_unique ((np_linspace01 n_q).map (np_quantile var_values))
  quantiles.dropLast

/-- The function `get_binary_targets` (notebook lines 182-206): for each side
separately, one row of bits per record, one bit per derived threshold
`q`, the bit being `value <= q`. -/
def get_binary_targets (visVals hmVals : List ℚ) (n_q : Nat) :
    List (List Bool) × List (List Bool) :=
  let quantiles := quantile_thresholds visVals hmVals n_q
  (visVals.map (fun v => quantiles.map (fun q => decide (v ≤ q))),
   hmVals.map (fun v => quantiles.map (fun q => decide (v ≤ q))))

/-- One `tr` element of an HTML table, reduced to the text contents of
its `td` and `th` children (in document order, as `find_all` returns
them). -/
structure Tr where
  tds : List String
  ths : List String
deriving DecidableEq

/-- The first pass of `html_table_to_df` (web_scraper_tools.py lines
23-37): walk the `tr` elements accumulating the data-row count, the
column count (set from the first `td`-bearing row), and the header texts
(taken from the first `th`-bearing row). -/
def scanTable : List Tr → Nat → Nat → List String → Nat × Nat × List String
  | [], nRows, nCols, colNames => (nRows, nCols, colNames)
  | tr :: rest, nRows, nCols, colNames =>
    let nRows' := if 0 < tr.tds.length then nRows + 1 else nRows
    let nCols' :=
      if 0 < tr.tds.length then (if nCols = 0 then tr.tds.length else nCols)
      else nCols
    let colNames' :=
      if 0 < tr.ths.length && colNames.length = 0 then colNames ++ tr.ths
      else colNames
    scanTable rest nRows' nCols' colNames'

/-- The triple `(n_rows, n_columns, column_names)` after the first pass. -/
def firstPass (table : List Tr) : Nat × Nat × List String :=
  scanTable table 0 0 []

/-- A cell grid: one list of cells per data row, `none` for the `NaN`
placeholders the empty frame is created with. -/
abbrev Grid := List (List (Option String))

/-- The assignment `df.iat[i, j] = v`: bounds-checked single-cell write; `none`
models the `IndexError` pandas raises on an out-of-range position. -/
def setCell (g : Grid) (i j : Nat) (v : String) : Option Grid :=
  (g.get? i).bind (fun row =>
    if j < row.length then some (g.set i (row.set j (some v))) else none)

/-- The inner cell loop of `html_table_to_df` (lines 49-52): write the
`td` texts of one row at consecutive column positions. -/
def fillRow : List String → Nat → Nat → Grid → Except String Grid
  | [], _, _, g => Except.ok g
  | td :: rest, rowMarker, colMarker, g =>
    match setCell g rowMarker colMarker td with
    | none => Except.error "IndexError"
    | some g' => fillRow rest rowMarker (colMarker + 1) g'

/-- The outer fill loop of `html_table_to_df` (lines 46-54): write each
`tr`'s cells, advancing the row marker only past `td`-bearing rows. -/
def fillRows : List Tr → Nat → Grid → Except String Grid
  | [], _, g => Except.ok g
  | tr :: rest, rowMarker, g =>
    match fillRow tr.tds rowMarker 0 g with
    | Except.error e => Except.error e
    | Except.ok g' =>
      fillRows rest (if 0 < tr.tds.length then rowMarker + 1 else rowMarker) g'

/-- A column label: a header text, or the integer position used when the
table has no headers. -/
abbrev ColLabel := String ⊕ Nat

/-- One cell after the final conversion pass: absent, still a string, or
converted to a float. -/
abbrev Cell := Option (String ⊕ ℚ)

/-- The result DataFrame: its column labels and its row-major cells. -/
structure Df where
  columns : List ColLabel
  cells : List (List Cell)
deriving DecidableEq

/-- Whether `df[column].astype(float)` succeeds for column `j`: every
present cell of the column must parse as a float (`parseFloat` stands
for Python's `float` conversion). -/
def colConvertible (parseFloat : String → Option ℚ) (g : Grid) (j : Nat) : Bool :=
  g.all (fun row =>
    match row.getD j none with
    | none => true
    | some s => (parseFloat s).isSome)

/-- The final conversion loop of `html_table_to_df` (lines 57-61):
convert each fully-parsable column to floats, leave the rest as strings;
the only failure (`ValueError`) is caught. -/
def convertGrid (parseFloat : String → Option ℚ) (g : Grid) : List (List Cell) :=
  g.map (fun row =>
    (row.enum).map (fun jc =>
      match jc.2 with
      | none => (none : Cell)
      | some s =>
        if colConvertible parseFloat g jc.1 then
          some (Sum.inr ((parseFloat s).getD 0))
        else some (Sum.inl s)))

/-- The parser `html_table_to_df` (web_scraper_tools.py lines 6-63), parameterised
by Python's `float` string conversion.  `Except.error` models an
uncaught exception: the explicit column-title mismatch `raise`, or the
`IndexError` escaping from `df.iat`. -/
def html_table_to_df (parseFloat : String → Option ℚ) (table : List Tr) :
    Except String Df :=
  let fp := firstPass table
  let nRows := fp.1
  let nCols := fp.2.1
  let colNames := fp.2.2
  if 0 < colNames.length ∧ colNames.length ≠ nCols then
    Except.error "Column titles do not match the number of columns"
  else
    let columns : List ColLabel :=
      if 0 < colNames.length then colNames.map Sum.inl
      else (List.range nCols).map Sum.inr
    let init : Grid := List.replicate nRows (List.replicate nCols none)
    match fillRows table 0 init with
    | Except.error e => Except.error e
    | Except.ok g => Except.ok ⟨columns, convertGrid parseFloat g⟩

/-- The retained (pre-catch-all) levels of a learned vocabulary. -/
def InputLevels.retained (values : List String) (min_obs : Nat) : List String :=
  values.dedup.filter
    (fun v => decide (min_obs ≤ values.count v) && decide (v ≠ "OTHER"))

theorem InputLevels.ofValues_levels_eq (values : List String) (m : Nat) :
    (InputLevels.ofValues values m).levels
      = InputLevels.retained values m ++ ["OTHER"] := rfl

theorem InputLevels.mem_retained_ne_other (values : List String) (m : Nat)
    (v : String) (hv : v ∈ InputLevels.retained values m) : v ≠ "OTHER" := by
  have h := (List.mem_filter.mp hv).2
  have h2 := (Bool.and_eq_true _ _).mp h
  exact of_decide_eq_true h2.2

theorem InputLevels.mem_retained_mem_values (values : List String) (m : Nat)
    (v : String) (hv : v ∈ InputLevels.retained values m) : v ∈ values :=
  List.mem_dedup.mp (List.mem_filter.mp hv).1

theorem InputLevels.retained_nodup (values : List String) (m : Nat) :
    (InputLevels.retained values m).Nodup :=
  List.Nodup.filter _ (List.nodup_dedup values)

theorem InputLevels.ofValues_nodup (values : List String) (m : Nat) :
    (InputLevels.ofValues values m).levels.Nodup := by
  rw [InputLevels.ofValues_levels_eq]
  refine List.nodup_append.mpr ⟨InputLevels.retained_nodup values m,
    List.nodup_singleton _, ?_⟩
  intro a ha hb
  exact InputLevels.mem_retained_ne_other values m a ha (List.mem_singleton.mp hb)

theorem InputLevels.catch_all_of_append (pre : List String) :
    (InputLevels.mk (pre ++ ["OTHER"])).catchAllIndex = pre.length := by
  simp [InputLevels.catchAllIndex]

theorem InputLevels.get_levels_catch_all (pre : List String) :
    (InputLevels.mk (pre ++ ["OTHER"])).get_levels
      (InputLevels.mk (pre ++ ["OTHER"])).catchAllIndex = some "OTHER" := by
  rw [InputLevels.catch_all_of_append]
  show (pre ++ ["OTHER"]).get? pre.length = some "OTHER"
  rw [List.get?_append_right (le_refl _)]
  simp

theorem InputLevels.get_indexes_of_not_mem_pre (pre : List String) (u : String)
    (hu : u ∉ pre) :
    (InputLevels.mk (pre ++ ["OTHER"])).get_indexes u
      = (InputLevels.mk (pre ++ ["OTHER"])).catchAllIndex := by
  unfold InputLevels.get_indexes
  by_cases hmem : u ∈ (InputLevels.mk (pre ++ ["OTHER"])).levels
  · rw [if_pos hmem]
    have ho : u = "OTHER" := by
      rcases List.mem_append.mp hmem with h | h
      · exact absurd h hu
      · exact List.mem_singleton.mp h
    subst ho
    show List.indexOf "OTHER" (pre ++ ["OTHER"]) = _
    rw [List.indexOf_append_of_not_mem hu, List.indexOf_cons_self,
      InputLevels.catch_all_of_append, Nat.add_zero]
  · rw [if_neg hmem]

/-- C6: any raw value absent from the learned vocabulary — a value never
seen at construction time in particular — resolves to the catch-all
index without error, and decoding the catch-all index yields the literal
`"OTHER"`. -/
theorem claim_c6_unknown_maps_to_catch_all (values : List String) (min_obs : Nat)
    (u : String)
    (hu : u ∉ values ∨ u ∉ InputLevels.retained values min_obs) :
    (InputLevels.ofValues values min_obs).get_indexes u
        = (InputLevels.ofValues values min_obs).catchAllIndex
    ∧ (InputLevels.ofValues values min_obs).get_levels
        ((InputLevels.ofValues values min_obs).catchAllIndex) = some "OTHER" := by
  have hpre : u ∉ InputLevels.retained values min_obs := by
    rcases hu with h | h
    · exact fun hc => h (InputLevels.mem_retained_mem_values values min_obs u hc)
    · exact h
  exact ⟨InputLevels.get_indexes_of_not_mem_pre _ u hpre,
    InputLevels.get_levels_catch_all _⟩

/-- Witness for C6 at a concrete vocabulary and a concrete unseen value. -/
theorem claim_c6_witness :
    (InputLevels.ofValues ["a", "a", "b"] 2).get_indexes "zzz"
        = (InputLevels.ofValues ["a", "a", "b"] 2).catchAllIndex
    ∧ (InputLevels.ofValues ["a", "a", "b"] 2).get_levels
        ((InputLevels.ofValues ["a", "a", "b"] 2).catchAllIndex) = some "OTHER" :=
  claim_c6_unknown_maps_to_catch_all ["a", "a", "b"] 2 "zzz" (Or.inl (by decide))

/-- C7: decoding any in-range index and re-encoding the decoded raw value
returns the original index; on this model the round trip holds at every
index, the catch-all included, so the catch-all is indeed the only place
it could ever be broken. -/
theorem claim_c7_round_trip (values : List String) (min_obs : Nat) (i : Nat)
    (v : String)
    (hv : (InputLevels.ofValues values min_obs).get_levels i = some v) :
    (InputLevels.ofValues values min_obs).get_indexes v = i := by
  rcases List.get?_eq_some.mp hv with ⟨h, hget⟩
  have hmem : v ∈ (InputLevels.ofValues values min_obs).levels := by
    rw [← hget]; exact List.get_mem _ _ _
  unfold InputLevels.get_indexes
  rw [if_pos hmem, ← hget]
  show List.indexOf ((InputLevels.ofValues values min_obs).levels.get ⟨i, h⟩) _ = i
  have := List.indexOf_getElem (InputLevels.ofValues_nodup values min_obs) i h
  simpa using this

/-- Witness for C7 at a concrete vocabulary and index. -/
theorem claim_c7_witness :
    (InputLevels.ofValues ["a", "a", "b"] 2).get_indexes "a" = 0 :=
  claim_c7_round_trip ["a", "a", "b"] 2 0 "a" (by rfl)

/-- C3 counterexample: `get_levels` at the out-of-range index 7 of the
seven-level `home_away` vocabulary does not fail — it produces the
`None` placeholder of the safe-lookup idiom, which the caller in
`get_sample` then silently consumes as the visitor perspective. -/
theorem claim_c3_counterexample :
    input_levels_home_away.get_levels 7 = none ∧ vis_hm_idx 7 = 0 :=
  ⟨rfl, rfl⟩

/-- C3 amended: an out-of-range index makes `get_levels` return the
`None` placeholder (never an explicit error), and the decoding call site
of `get_sample` maps that placeholder to the visitor perspective rather
than failing. -/
theorem claim_c3_out_of_range_placeholder (lv : InputLevels) (i : Nat)
    (h : lv.levels.length ≤ i) :
    lv.get_levels i = none
    ∧ (lv = input_levels_home_away → vis_hm_idx i = 0) := by
  have hn : lv.get_levels i = none := List.get?_eq_none.mpr h
  refine ⟨hn, fun he => ?_⟩
  unfold vis_hm_idx
  rw [← he, hn]

/-- Witness for the amended C3 at a concrete out-of-range index. -/
theorem claim_c3_witness :
    input_levels_home_away.get_levels 8 = none
    ∧ (input_levels_home_away = input_levels_home_away → vis_hm_idx 8 = 0) :=
  claim_c3_out_of_range_placeholder input_levels_home_away 8 (by decide)

/-- C9: the derived win flags are exhaustive and mutually exclusive —
`HmWin` is the negation of `VisWin` — and a tie in runs counts as a home
win. -/
theorem claim_c9_win_flags (row : Row) :
    (HmWin row = !VisWin row)
    ∧ (VisWin row = true ∨ HmWin row = true)
    ∧ ¬(VisWin row = true ∧ HmWin row = true)
    ∧ (row.VisRuns = row.HmRuns → HmWin row = true ∧ VisWin row = false) := by
  unfold VisWin HmWin
  rcases le_or_lt row.VisRuns row.HmRuns with h | h
  · have h1 : decide (row.VisRuns ≤ row.HmRuns) = true := decide_eq_true h
    have h2 : decide (row.HmRuns < row.VisRuns) = false :=
      decide_eq_false (not_lt.mpr h)
    rw [h1, h2]
    exact ⟨rfl, Or.inr rfl, by simp, fun _ => ⟨rfl, rfl⟩⟩
  · have h1 : decide (row.VisRuns ≤ row.HmRuns) = false :=
      decide_eq_false (not_le.mpr h)
    have h2 : decide (row.HmRuns < row.VisRuns) = true := decide_eq_true h
    rw [h1, h2]
    refine ⟨rfl, Or.inl rfl, by simp, fun heq => ?_⟩
    rw [heq] at h
    exact absurd h (lt_irrefl _)

/-- Witness for C9 at a concrete tied record. -/
theorem claim_c9_witness :
    HmWin ⟨"", "", "", "", "", "", "", "", "", "", "", "", "", "", 2, 2⟩ = true
    ∧ VisWin ⟨"", "", "", "", "", "", "", "", "", "", "", "", "", "", 2, 2⟩ = false :=
  (claim_c9_win_flags _).2.2.2 rfl

/-- A vocabulary learned from no observations: only the catch-all level. -/
def emptyLevels : InputLevels := InputLevels.ofValues [] 0

/-- A concrete `input_levels` environment for counterexamples and
witnesses. -/
def envEx : Env :=
  ⟨emptyLevels, emptyLevels, emptyLevels, emptyLevels, emptyLevels,
   emptyLevels, emptyLevels, emptyLevels, emptyLevels, emptyLevels⟩

/-- A concrete raw record, fully symmetric between the visiting and home
sides. -/
def rowEx : Row :=
  ⟨"x", "x", "x", "x", "x", "low", "x", "x", "t", "p", "m", "t", "p", "m", 0, 0⟩

/-- C1 counterexample: even for a fully symmetric record, the two
encodings are not permutations of each other — the final home/away
composite field encodes `home_low` (index 3) in one and `away_low`
(index 0) in the other. -/
theorem claim_c1_counterexample :
    ¬ (get_inputs envEx rowEx true).Perm (get_inputs envEx rowEx false) := by
  decide

/-- C1 amended: the two encodings agree on the seven shared fields,
exchange the visiting and home team/pitcher/manager blocks (positions
7-9 and 10-12), and always differ at the final home/away composite
position for the attendance buckets the pipeline produces — so the full
vectors are never identical, and never permutations of each other. -/
theorem claim_c1_block_swap (env : Env) (row : Row) :
    ((get_inputs env row false).take 7 = (get_inputs env row true).take 7)
    ∧ (((get_inputs env row false).drop 7).take 3
        = ((get_inputs env row true).drop 10).take 3)
    ∧ (((get_inputs env row false).drop 10).take 3
        = ((get_inputs env row true).drop 7).take 3)
    ∧ (row.Attendance = "low" ∨ row.Attendance = "med" ∨ row.Attendance = "high" →
        (get_inputs env row false).getLastD 0
          ≠ (get_inputs env row true).getLastD 0) := by
  refine ⟨rfl, rfl, rfl, ?_⟩
  have hf : (get_inputs env row false).getLastD 0
      = input_levels_home_away.get_indexes ("away_" ++ row.Attendance) := rfl
  have ht : (get_inputs env row true).getLastD 0
      = input_levels_home_away.get_indexes ("home_" ++ row.Attendance) := rfl
  rw [hf, ht]
  rintro (h | h | h) <;> rw [h] <;> decide

/-- Witness for the amended C1 at the concrete symmetric record. -/
theorem claim_c1_witness :
    (get_inputs envEx rowEx false).getLastD 0
      ≠ (get_inputs envEx rowEx true).getLastD 0 :=
  (claim_c1_block_swap envEx rowEx).2.2.2 (Or.inl rfl)

/-- C8: the seven leading fields (year, month, day, day/night, park,
league, umpire) of the encoded vector do not depend on the
`home_tm_last` flag; both encodings have the full documented length
14, so only the two three-field blocks and the final composite field
remain flag-dependent. -/
theorem claim_c8_first_seven_fixed (env : Env) (row : Row) :
    (get_inputs env row true).take 7 = (get_inputs env row false).take 7
    ∧ (get_inputs env row true).length = 14
    ∧ (get_inputs env row false).length = 14 :=
  ⟨rfl, rfl, rfl⟩

/-- C2: for the attendance buckets the pipeline produces, the
perspective chosen at encoding time is recovered exactly from the final
composite field (`1` for home-last, `0` for visitor-last), and the
`'Win'` target is `HmWin` when the composite decodes to a `home_*`
level and `VisWin` otherwise. -/
theorem claim_c2_perspective_recovery (env : Env) (row : Row) (b : Bool)
    (h : row.Attendance = "low" ∨ row.Attendance = "med" ∨ row.Attendance = "high") :
    vis_hm_idx ((get_inputs env row b).getLastD 0) = (if b then 1 else 0)
    ∧ win_target env row b = (if b then HmWin row else VisWin row) := by
  have hidx : vis_hm_idx ((get_inputs env row b).getLastD 0)
      = (if b then 1 else 0) := by
    cases b
    · have hf : (get_inputs env row false).getLastD 0
          = input_levels_home_away.get_indexes ("away_" ++ row.Attendance) := rfl
      rw [hf]
      rcases h with h | h | h <;> rw [h] <;> decide
    · have ht : (get_inputs env row true).getLastD 0
          = input_levels_home_away.get_indexes ("home_" ++ row.Attendance) := rfl
      rw [ht]
      rcases h with h | h | h <;> rw [h] <;> decide
  refine ⟨hidx, ?_⟩
  unfold win_target
  rw [hidx]
  cases b
  · rfl
  · rfl

/-- Witness for C2 at the concrete record, for both flag outcomes. -/
theorem claim_c2_witness :
    win_target envEx rowEx true = HmWin rowEx
    ∧ win_target envEx rowEx false = VisWin rowEx :=
  ⟨(claim_c2_perspective_recovery envEx rowEx true (Or.inl rfl)).2,
   (claim_c2_perspective_recovery envEx rowEx false (Or.inl rfl)).2⟩

theorem zipWith_mask_one (x : List Nat) (randoms : List ℚ)
    (hlen : randoms.length = x.length) (hr : ∀ r ∈ randoms, r ≤ 1) :
    List.zipWith (fun xi r => if r ≤ (1 : ℚ) then 0 else xi) x randoms
      = List.replicate x.length 0 := by
  induction x generalizing randoms with
  | nil => simp
  | cons xi xs ih =>
    cases randoms with
    | nil => simp at hlen
    | cons r rs =>
      have hr1 : r ≤ 1 := hr r (List.mem_cons_self _ _)
      have hlen' : rs.length = xs.length := by simpa using hlen
      have htail := ih rs hlen' (fun s hs => hr s (List.mem_cons_of_mem _ hs))
      simp only [List.zipWith_cons_cons, if_pos hr1, htail, List.length_cons,
        List.replicate_succ]

/-- C4: masking with `mask_p = 1.0` resets every position to index 0,
whatever the uniform draws in `[0, 1)` are. -/
theorem claim_c4_full_mask (x : List Nat) (randoms : List ℚ)
    (hlen : randoms.length = x.length)
    (hr : ∀ r ∈ randoms, 0 ≤ r ∧ r < 1) :
    apply_mask x randoms 1 = List.replicate x.length 0 := by
  unfold apply_mask
  rw [if_pos (by norm_num : (0 : ℚ) < 1)]
  exact zipWith_mask_one x randoms hlen (fun r h => le_of_lt (hr r h).2)

/-- Witness for C4 at a concrete vector and concrete draws. -/
theorem claim_c4_witness :
    apply_mask [5, 3] [0, 0] 1 = List.replicate 2 0 :=
  claim_c4_full_mask [5, 3] [0, 0] rfl (by decide)

/-- C5: for each side separately, every record gets one row of binary
targets with exactly one bit per derived quantile threshold, and the bit
for threshold `q` is set exactly when the side's statistic value is at
most `q`. -/
theorem claim_c5_binary_targets (visVals hmVals : List ℚ) (n_q : Nat) :
    ((get_binary_targets visVals hmVals n_q).1.length = visVals.length
      ∧ (get_binary_targets visVals hmVals n_q).2.length = hmVals.length)
    ∧ (∀ i v j q, visVals.get? i = some v →
        (quantile_thresholds visVals hmVals n_q).get? j = some q →
        ∃ bits, (get_binary_targets visVals hmVals n_q).1.get? i = some bits
          ∧ bits.length = (quantile_thresholds visVals hmVals n_q).length
          ∧ bits.get? j = some (decide (v ≤ q)))
    ∧ (∀ i v j q, hmVals.get? i = some v →
        (quantile_thresholds visVals hmVals n_q).get? j = some q →
        ∃ bits, (get_binary_targets visVals hmVals n_q).2.get? i = some bits
          ∧ bits.length = (quantile_thresholds visVals hmVals n_q).length
          ∧ bits.get? j = some (decide (v ≤ q))) := by
  refine ⟨⟨by simp [get_binary_targets], by simp [get_binary_targets]⟩, ?_, ?_⟩ <;>
  · intro i v j q hi hj
    refine ⟨(quantile_thresholds visVals hmVals n_q).map (fun t => decide (v ≤ t)),
      ?_, by simp, ?_⟩
    · show (List.map _ _).get? i = _
      rw [List.get?_map, hi]
      rfl
    · rw [List.get?_map, hj]
      rfl

/-- Witness for C5 at concrete value columns (four distinct pooled
values, so the thresholds are the distinct values minus the largest). -/
theorem claim_c5_witness :
    ∃ bits, (get_binary_targets [0, 2] [1, 3] 10).1.get? 0 = some bits
      ∧ bits.length = (quantile_thresholds [0, 2] [1, 3] 10).length
      ∧ bits.get? 1 = some (decide ((0 : ℚ) ≤ 1)) :=
  (claim_c5_binary_targets [0, 2] [1, 3] 10).2.1 0 0 1 1 rfl rfl

/-- The number of `td`-bearing rows of a table (what `n_rows` counts). -/
def countData (table : List Tr) : Nat :=
  table.countP (fun tr => decide (0 < tr.tds.length))

theorem scanTable_fst : ∀ (l : List Tr) (nr nc : Nat) (cn : List String),
    (scanTable l nr nc cn).1 = nr + countData l
  | [], nr, nc, cn => by simp [scanTable, countData]
  | tr :: rest, nr, nc, cn => by
    simp only [scanTable]
    rw [scanTable_fst rest]
    simp only [countData, List.countP_cons]
    by_cases h : 0 < tr.tds.length <;> simp [h] <;> omega

theorem firstPass_rows (table : List Tr) : (firstPass table).1 = countData table := by
  unfold firstPass
  rw [scanTable_fst]
  omega

theorem setCell_shape {nc : Nat} (g : Grid) (i j : Nat) (v : String)
    (h : ∀ row ∈ g, row.length = nc) (g' : Grid) (hs : setCell g i j v = some g') :
    g'.length = g.length ∧ ∀ row ∈ g', row.length = nc := by
  cases hg : g.get? i with
  | none =>
    simp only [setCell, hg, Option.none_bind] at hs
    cases hs
  | some row =>
    simp only [setCell, hg, Option.some_bind] at hs
    by_cases hj : j < row.length
    · rw [if_pos hj] at hs
      cases hs
      refine ⟨List.length_set _ _ _, fun r hr => ?_⟩
      rcases List.mem_or_eq_of_mem_set hr with hm | hm
      · exact h r hm
      · rw [hm, List.length_set]
        exact h row (List.get?_mem hg)
    · rw [if_neg hj] at hs
      cases hs

theorem fillRow_ok {nc : Nat} : ∀ (tds : List String) (rm cm : Nat) (g : Grid),
    (∀ row ∈ g, row.length = nc) → rm < g.length → cm + tds.length ≤ nc →
    ∃ g', fillRow tds rm cm g = Except.ok g' ∧ g'.length = g.length
      ∧ ∀ row ∈ g', row.length = nc
  | [], rm, cm, g => fun hsh _ _ => ⟨g, rfl, rfl, hsh⟩
  | td :: rest, rm, cm, g => fun hsh hrm hcm => by
    obtain ⟨row, hrow⟩ : ∃ row, g.get? rm = some row := by
      cases hg : g.get? rm with
      | none => rw [List.get?_eq_none] at hg; omega
      | some r => exact ⟨r, rfl⟩
    have hrl : row.length = nc := hsh row (List.get?_mem hrow)
    have hj : cm < row.length := by
      rw [hrl]
      simp only [List.length_cons] at hcm
      omega
    have hset : setCell g rm cm td = some (g.set rm (row.set cm (some td))) := by
      simp only [setCell, hrow, Option.some_bind, if_pos hj]
    obtain ⟨hl₂, hs₂⟩ := setCell_shape g rm cm td hsh _ hset
    obtain ⟨g', hfill, hlen', hsh'⟩ :=
      fillRow_ok rest rm (cm + 1) (g.set rm (row.set cm (some td))) hs₂
        (by rw [hl₂]; exact hrm)
        (by simp only [List.length_cons] at hcm; omega)
    refine ⟨g', ?_, by rw [hlen', hl₂], hsh'⟩
    simp only [fillRow, hset]
    exact hfill

theorem fillRow_shape {nc : Nat} : ∀ (tds : List String) (rm cm : Nat) (g g₁ : Grid),
    (∀ row ∈ g, row.length = nc) → fillRow tds rm cm g = Except.ok g₁ →
    (g₁.length = g.length ∧ ∀ row ∈ g₁, row.length = nc)
  | [], rm, cm, g, g₁ => fun hsh h => by
    simp only [fillRow] at h
    cases h
    exact ⟨rfl, hsh⟩
  | td :: rest, rm, cm, g, g₁ => fun hsh h => by
    simp only [fillRow] at h
    cases hset : setCell g rm cm td with
    | none => rw [hset] at h; cases h
    | some g₂ =>
      rw [hset] at h
      obtain ⟨hl₂, hs₂⟩ := setCell_shape g rm cm td hsh g₂ hset
      obtain ⟨hl₁, hs₁⟩ := fillRow_shape rest rm (cm + 1) g₂ g₁ hs₂ h
      exact ⟨by rw [hl₁, hl₂], hs₁⟩

theorem fillRow_err_row : ∀ (tds : List String) (rm cm : Nat) (g : Grid),
    g.length ≤ rm → tds ≠ [] → fillRow tds rm cm g = Except.error "IndexError"
  | [], _, _, _ => fun _ h => absurd rfl h
  | td :: rest, rm, cm, g => fun hrm _ => by
    have hg : g.get? rm = none := List.get?_eq_none.mpr hrm
    simp only [fillRow, setCell, hg, Option.none_bind]

theorem fillRow_err_col {nc : Nat} : ∀ (tds : List String) (rm cm : Nat) (g : Grid),
    (∀ row ∈ g, row.length = nc) → rm < g.length → cm ≤ nc → nc < cm + tds.length →
    fillRow tds rm cm g = Except.error "IndexError"
  | [], rm, cm, g => fun _ _ hle hlt => by simp only [List.length_nil] at hlt; omega
  | td :: rest, rm, cm, g => fun hsh hrm hle hlt => by
    obtain ⟨row, hrow⟩ : ∃ row, g.get? rm = some row := by
      cases hg : g.get? rm with
      | none => rw [List.get?_eq_none] at hg; omega
      | some r => exact ⟨r, rfl⟩
    have hrl : row.length = nc := hsh row (List.get?_mem hrow)
    by_cases hcm : cm < nc
    · have hj : cm < row.length := by rw [hrl]; exact hcm
      have hset : setCell g rm cm td = some (g.set rm (row.set cm (some td))) := by
        simp only [setCell, hrow, Option.some_bind, if_pos hj]
      obtain ⟨hl₂, hs₂⟩ := setCell_shape g rm cm td hsh _ hset
      have := fillRow_err_col rest rm (cm + 1) (g.set rm (row.set cm (some td)))
        hs₂ (by rw [hl₂]; exact hrm) (by omega)
        (by simp only [List.length_cons] at hlt; omega)
      simp only [fillRow, hset]
      exact this
    · have hj : ¬ cm < row.length := by rw [hrl]; omega
      have hset : setCell g rm cm td = none := by
        simp only [setCell, hrow, Option.some_bind, if_neg hj]
      simp only [fillRow, hset]

theorem fillRows_ok {nc : Nat} : ∀ (l : List Tr) (rm : Nat) (g : Grid),
    (∀ row ∈ g, row.length = nc) → rm + countData l ≤ g.length →
    (∀ tr ∈ l, tr.tds.length ≤ nc) →
    ∃ g', fillRows l rm g = Except.ok g' ∧ g'.length = g.length
      ∧ ∀ row ∈ g', row.length = nc
  | [], rm, g => fun hsh _ _ => ⟨g, rfl, rfl, hsh⟩
  | tr :: rest, rm, g => fun hsh hbud hall => by
    by_cases hd : 0 < tr.tds.length
    · have hcnt : countData (tr :: rest) = countData rest + 1 := by
        simp [countData, List.countP_cons, hd]
      have hrm : rm < g.length := by omega
      obtain ⟨g₁, h₁, hl₁, hs₁⟩ := fillRow_ok tr.tds rm 0 g hsh hrm
        (by simpa using hall tr (List.mem_cons_self _ _))
      obtain ⟨g', h', hl', hs'⟩ := fillRows_ok rest (rm + 1) g₁ hs₁
        (by rw [hl₁]; omega)
        (fun t ht => hall t (List.mem_cons_of_mem _ ht))
      refine ⟨g', ?_, by rw [hl', hl₁], hs'⟩
      simp only [fillRows, h₁, if_pos hd]
      exact h'
    · have htds : tr.tds = [] :=
        List.length_eq_zero.mp (Nat.eq_zero_of_not_pos hd)
      have hcnt : countData (tr :: rest) = countData rest := by
        simp [countData, List.countP_cons, hd]
      obtain ⟨g', h', hl', hs'⟩ := fillRows_ok rest rm g hsh (by omega)
        (fun t ht => hall t (List.mem_cons_of_mem _ ht))
      refine ⟨g', ?_, hl', hs'⟩
      simp only [fillRows, htds, fillRow, if_neg hd]
      exact h'

theorem fillRows_err {nc : Nat} : ∀ (l : List Tr) (rm : Nat) (g : Grid),
    (∀ row ∈ g, row.length = nc) → (∃ tr ∈ l, nc < tr.tds.length) →
    ∃ e, fillRows l rm g = Except.error e
  | [], rm, g => fun _ hex => by simp at hex
  | tr :: rest, rm, g => fun hsh hex => by
    by_cases hbad : nc < tr.tds.length
    · by_cases hrm : rm < g.length
      · have he := fillRow_err_col tr.tds rm 0 g hsh hrm (Nat.zero_le _)
          (by omega)
        refine ⟨"IndexError", ?_⟩
        simp only [fillRows, he]
      · have hne : tr.tds ≠ [] := by
          intro h
          rw [h] at hbad
          simp at hbad
        have he := fillRow_err_row tr.tds rm 0 g (by omega) hne
        refine ⟨"IndexError", ?_⟩
        simp only [fillRows, he]
    · have hex' : ∃ t ∈ rest, nc < t.tds.length := by
        rcases hex with ⟨t, ht, hlen⟩
        rcases List.mem_cons.mp ht with h | h
        · rw [← h] at hbad
          exact absurd hlen hbad
        · exact ⟨t, h, hlen⟩
      cases hfr : fillRow tr.tds rm 0 g with
      | error e =>
        refine ⟨e, ?_⟩
        simp only [fillRows, hfr]
      | ok g₁ =>
        obtain ⟨_, hs₁⟩ := fillRow_shape tr.tds rm 0 g g₁ hsh hfr
        obtain ⟨e, he⟩ :=
          fillRows_err rest (if 0 < tr.tds.length then rm + 1 else rm) g₁ hs₁ hex'
        refine ⟨e, ?_⟩
        simp only [fillRows, hfr]
        exact he

/-- The explicit column-title safeguard condition of the source (line
40): a non-empty header list whose length differs from the first data
row's cell count. -/
def headerMismatch (table : List Tr) : Prop :=
  0 < (firstPass table).2.2.length
    ∧ (firstPass table).2.2.length ≠ (firstPass table).2.1

/-- Some row carries more `td` cells than the first data row, making the
cell loop write past the frame's column bound. -/
def rowOverflow (table : List Tr) : Prop :=
  ∃ tr ∈ table, (firstPass table).2.1 < tr.tds.length

/-- C10 amended: `html_table_to_df` raises exactly when the header list
is non-empty with a length differing from the first data row's cell
count, or when some row carries more `td` cells than the first data row
(the `df.iat` index overflow the claim misses); otherwise it returns a
DataFrame with one row per `td`-bearing `tr`, labelled by the header
texts when present and by integer positions otherwise. -/
theorem claim_c10_parse_behavior (parseFloat : String → Option ℚ) (table : List Tr) :
    ((∃ e, html_table_to_df parseFloat table = Except.error e) ↔
      (headerMismatch table ∨ rowOverflow table))
    ∧ (∀ df, html_table_to_df parseFloat table = Except.ok df →
        df.cells.length = countData table
        ∧ df.columns = (if 0 < (firstPass table).2.2.length
            then (firstPass table).2.2.map Sum.inl
            else (List.range (firstPass table).2.1).map Sum.inr)) := by
  simp only [html_table_to_df, headerMismatch, rowOverflow]
  by_cases hhm : 0 < (firstPass table).2.2.length
      ∧ (firstPass table).2.2.length ≠ (firstPass table).2.1
  · rw [if_pos hhm]
    refine ⟨⟨fun _ => Or.inl hhm, fun _ => ⟨_, rfl⟩⟩, fun df h => ?_⟩
    cases h
  · rw [if_neg hhm]
    have hshape : ∀ row ∈ (List.replicate (firstPass table).1
        (List.replicate (firstPass table).2.1 (none : Option String)) : Grid),
        row.length = (firstPass table).2.1 := by
      intro row hr
      rw [(List.mem_replicate.mp hr).2, List.length_replicate]
    by_cases hovf : ∃ tr ∈ table, (firstPass table).2.1 < tr.tds.length
    · obtain ⟨e, he⟩ := fillRows_err table 0
        (List.replicate (firstPass table).1
          (List.replicate (firstPass table).2.1 (none : Option String)))
        hshape hovf
      simp only [he]
      refine ⟨⟨fun _ => Or.inr hovf, fun _ => ⟨e, rfl⟩⟩, fun df h => ?_⟩
      cases h
    · have hall : ∀ tr ∈ table, tr.tds.length ≤ (firstPass table).2.1 :=
        fun t ht => Nat.le_of_not_lt (fun hlt => hovf ⟨t, ht, hlt⟩)
      have hbud : 0 + countData table ≤ (List.replicate (firstPass table).1
          (List.replicate (firstPass table).2.1 (none : Option String)) : Grid).length := by
        rw [List.length_replicate, Nat.zero_add, firstPass_rows]
      obtain ⟨g', hok, hlen, _⟩ := fillRows_ok table 0
        (List.replicate (firstPass table).1
          (List.replicate (firstPass table).2.1 (none : Option String)))
        hshape hbud hall
      simp only [hok]
      constructor
      · constructor
        · rintro ⟨e, he⟩
          cases he
        · rintro (h | h)
          · exact absurd h hhm
          · exact absurd h hovf
      · intro df h
        cases h
        constructor
        · show (convertGrid parseFloat g').length = countData table
          rw [convertGrid, List.length_map, hlen, List.length_replicate,
            firstPass_rows]
        · rfl

/-- A ragged table with no headers: the second data row has one more
`td` cell than the first. -/
def raggedTable : List Tr := [⟨["x"], []⟩, ⟨["y", "z"], []⟩]

/-- Python's `float` conversion, abstracted; for the concrete tables
used below nothing needs to parse. -/
def parseNone : String → Option ℚ := fun _ => none

/-- C10 counterexample: the ragged table yields an empty header list, so
the claim predicts a successful DataFrame, but the code raises an
`IndexError` from `df.iat` when the second row's extra cell is written. -/
theorem claim_c10_counterexample :
    html_table_to_df parseNone raggedTable = Except.error "IndexError"
    ∧ (firstPass raggedTable).2.2 = [] :=
  ⟨rfl, rfl⟩

/-- A well-formed headered table used to witness the success branch. -/
def headeredTable : List Tr := [⟨[], ["a", "b"]⟩, ⟨["1", "2"], []⟩]

/-- Witness for the amended C10: on the well-formed table the parse
succeeds, with one row of cells and the two header labels. -/
theorem claim_c10_witness :
    (Df.cells ⟨[Sum.inl "a", Sum.inl "b"],
        [[some (Sum.inl "1"), some (Sum.inl "2")]]⟩).length
      = countData headeredTable
    ∧ Df.columns ⟨[Sum.inl "a", Sum.inl "b"],
        [[some (Sum.inl "1"), some (Sum.inl "2")]]⟩
      = (if 0 < (firstPass headeredTable).2.2.length
          then (firstPass headeredTable).2.2.map Sum.inl
          else (List.range (firstPass headeredTable).2.1).map Sum.inr) :=
  (claim_c10_parse_behavior parseNone headeredTable).2
    ⟨[Sum.inl "a", Sum.inl "b"], [[some (Sum.inl "1"), some (Sum.inl "2")]]⟩ rfl
